import Mathlib

/-!
Shallow embedding of the `bevy_state_v3` reactive hierarchical-state subsystem:
state records (`data.rs`), the per-instance update step, hierarchy orders and
registration bookkeeping (`state.rs`), lifecycle-event systems
(`transitions.rs`), and state-initialization commands (`commands.rs`).
-/

/-- Entity identifiers, as in `bevy_ecs::entity::Entity`. -/
abbrev Entity := Nat

/-- The `Entity::PLACEHOLDER` sentinel (index `u32::MAX`). -/
def Entity.PLACEHOLDER : Entity := 4294967295

/-- `StateUpdate<S>` from `state.rs`: the overwrite-style target backend. -/
inductive StateUpdate (S : Type) : Type where
  | Nothing : StateUpdate S
  | Disable : StateUpdate S
  | Enable : S → StateUpdate S
  deriving DecidableEq

/-- `StateUpdate::is_something` from `state.rs`. -/
def StateUpdate.is_something {S : Type} : StateUpdate S → Bool
  | .Nothing => false
  | _ => true

/-- `StateUpdate::as_options` from `state.rs`. -/
def StateUpdate.as_options {S : Type} : StateUpdate S → Option (Option S)
  | .Nothing => none
  | .Disable => some none
  | .Enable s => some (some s)

/-- The `StateTarget` trait from `state.rs`, together with its `Default` super-trait. -/
class StateTarget (T : Type) where
  default : T
  should_update : T → Bool
  reset : T → T

/-- `impl StateTarget for StateUpdate<S>`: `should_update` is `is_something`,
`reset` is `self.take()`, i.e. replacement by the default `Nothing`. -/
instance {S : Type} : StateTarget (StateUpdate S) where
  default := .Nothing
  should_update := StateUpdate.is_something
  reset := fun _ => .Nothing

/-- `impl StateTarget for ()`: never requests an update, `reset` is a no-op. -/
instance : StateTarget Unit where
  default := ()
  should_update := fun _ => false
  reset := fun t => t

/-- `StateData<S>` from `data.rs`; the parameter `T` stands for `S::Target`. -/
structure StateData (S : Type) (T : Type) where
  is_reentrant : Bool
  previous : Option S
  current : Option S
  target : T
  is_updated : Bool
  deriving DecidableEq

/-- `StateData::new` from `data.rs`. -/
def StateData.new {S T : Type} [StateTarget T] (initial : Option S)
    (suppress_initial_update : Bool) : StateData S T :=
  { is_reentrant := false
    previous := none
    current := initial
    target := StateTarget.default
    is_updated := !suppress_initial_update }

/-- `StateData::update` from `data.rs` (the spec calls this operation `advance`). -/
def StateData.update {S T : Type} [DecidableEq S] (d : StateData S T)
    (next : Option S) : StateData S T :=
  if next = d.current then
    { d with is_reentrant := true, is_updated := true }
  else
    { d with
      is_reentrant := false, previous := d.current, current := next,
      is_updated := true }

/-- The loop body of `State::update_system` from `state.rs` for one instance.
`upd` is the per-state-type `S::update` function (pure per the spec contract),
`is_dependency_set_changed` is `DependencySet::is_changed` on the snapshot.
Returns the new record together with the number of calls made to `upd`. -/
def update_system {S T : Type} [DecidableEq S] [StateTarget T]
    (upd : StateData S T → StateUpdate S) (is_dependency_set_changed : Bool)
    (state : StateData S T) : StateData S T × Nat :=
  let state1 := { state with is_updated := false }
  let is_target_changed := StateTarget.should_update state1.target
  if is_dependency_set_changed || is_target_changed then
    match (upd state1).as_options with
    | some next =>
      let state2 := state1.update next
      ({ state2 with target := StateTarget.reset state2.target }, 1)
    | none => (state1, 1)
  else (state1, 0)

/-- One `OnExit`/`OnEnter`/`OnReexit`/`OnReenter` trigger as dispatched via
`commands.trigger_targets(event, target)` in `transitions.rs`. -/
structure TriggeredEvent (S : Type) where
  target : Entity
  previous : Option S
  current : Option S
  deriving DecidableEq

/-- `on_exit_transition` from `transitions.rs`, over the query rows
`(entity, state, has GlobalStateMarker)`. -/
def on_exit_transition {S T : Type} (query : List (Entity × StateData S T × Bool)) :
    List (TriggeredEvent S) :=
  query.filterMap fun row =>
    let (entity, state, is_global) := row
    if !state.is_updated || state.is_reentrant then none
    else some { target := if is_global then Entity.PLACEHOLDER else entity
                previous := state.previous
                current := state.current }

/-- `on_enter_transition` from `transitions.rs`. -/
def on_enter_transition {S T : Type} (states : List (Entity × StateData S T × Bool)) :
    List (TriggeredEvent S) :=
  states.filterMap fun row =>
    let (entity, state, is_global) := row
    if !state.is_updated || state.is_reentrant then none
    else some { target := if is_global then Entity.PLACEHOLDER else entity
                previous := state.previous
                current := state.current }

/-- `on_reexit_transition` from `transitions.rs`. -/
def on_reexit_transition {S T : Type} (query : List (Entity × StateData S T × Bool)) :
    List (TriggeredEvent S) :=
  query.filterMap fun row =>
    let (entity, state, is_global) := row
    if !state.is_updated || state.is_reentrant then none
    else some { target := if is_global then Entity.PLACEHOLDER else entity
                previous := state.previous
                current := state.current }

/-- `on_reenter_transition` from `transitions.rs`. -/
def on_reenter_transition {S T : Type} (states : List (Entity × StateData S T × Bool)) :
    List (TriggeredEvent S) :=
  states.filterMap fun row =>
    let (entity, state, is_global) := row
    if !state.is_updated || state.is_reentrant then none
    else some { target := if is_global then Entity.PLACEHOLDER else entity
                previous := state.previous
                current := state.current }

/-- A concrete record that underwent a reentrant update this tick:
`is_updated` and `is_reentrant` are both set. -/
def reentrant_row : StateData Nat Unit :=
  { is_reentrant := true
    previous := none
    current := some 0
    target := ()
    is_updated := true }

/-- After any update, `current` equals the value passed in. -/
theorem StateData.update_current {S T : Type} [DecidableEq S] (d : StateData S T)
    (v : Option S) : (d.update v).current = d.current ∨ (d.update v).current = v := by
  by_cases h : v = d.current <;> simp [StateData.update, h]

/-- Helper: the updated record's `current` is exactly the argument. -/
theorem StateData.update_current_eq {S T : Type} [DecidableEq S] (d : StateData S T)
    (v : Option S) : (d.update v).current = v := by
  by_cases h : v = d.current <;> simp [StateData.update, h]

/-- Helper: an update with a value equal to `current` only raises the flags. -/
theorem StateData.update_eq_of_eq {S T : Type} [DecidableEq S] (d : StateData S T)
    (v : Option S) (h : v = d.current) :
    d.update v = { d with is_reentrant := true, is_updated := true } := by
  simp [StateData.update, h]

/-- C2: calling `StateData::update` with a value equal to `current` sets
`is_reentrant`, leaves `current` and `previous` untouched, and sets `is_updated`;
consequently two consecutive updates with the same value leave `previous` after
the second call equal to `previous` after the first, with `is_reentrant` true. -/
theorem update_reentrant_preserves {S T : Type} [DecidableEq S] (d : StateData S T)
    (v : Option S) :
    ((d.update d.current).is_reentrant = true
      ∧ (d.update d.current).current = d.current
      ∧ (d.update d.current).previous = d.previous
      ∧ (d.update d.current).is_updated = true)
    ∧ (((d.update v).update v).previous = (d.update v).previous
      ∧ ((d.update v).update v).is_reentrant = true) := by
  have hcur := StateData.update_current_eq d v
  have h2 := StateData.update_eq_of_eq (d.update v) v hcur.symm
  constructor
  · rw [StateData.update_eq_of_eq d d.current rfl]
    exact ⟨rfl, rfl, rfl, rfl⟩
  · rw [h2]
    exact ⟨rfl, rfl⟩

/-- C3: calling `StateData::update` with a value different from `current` stores
it in `current`, moves the old `current` into `previous`, clears `is_reentrant`
and sets `is_updated`. -/
theorem update_distinct_advances {S T : Type} [DecidableEq S] (d : StateData S T)
    (v : Option S) (h : v ≠ d.current) :
    (d.update v).current = v ∧ (d.update v).previous = d.current
      ∧ (d.update v).is_reentrant = false ∧ (d.update v).is_updated = true := by
  simp [StateData.update, h]

/-- A default-initialized record used as a concrete input. -/
def blank_record : StateData Nat Unit :=
  { is_reentrant := false
    previous := none
    current := none
    target := ()
    is_updated := false }

/-- Witness for C3 at a concrete input. -/
theorem update_distinct_advances_witness :
    (blank_record.update (some 1)).current = some 1
      ∧ (blank_record.update (some 1)).previous = none
      ∧ (blank_record.update (some 1)).is_reentrant = false
      ∧ (blank_record.update (some 1)).is_updated = true :=
  update_distinct_advances blank_record (some 1) (by decide)

/-- C1: the code skips reentrant instances in `on_reexit_transition` and
`on_reenter_transition` — at a record with `is_updated = true` and
`is_reentrant = true` neither system emits an event, although the events'
own documentation says reentrant transitions are included. -/
theorem on_reexit_reenter_skip_reentrant :
    reentrant_row.is_updated = true ∧ reentrant_row.is_reentrant = true
      ∧ on_reexit_transition [((0 : Entity), reentrant_row, false)] = []
      ∧ on_reenter_transition [((0 : Entity), reentrant_row, false)] = [] :=
  ⟨rfl, rfl, rfl, rfl⟩

/-- C10: each of the four lifecycle systems, on a query row
`(entity, record, has GlobalStateMarker)` that fires, emits exactly one event
targeted at `Entity::PLACEHOLDER` when the global marker is present and at the
owning entity otherwise, carrying the record's `previous` and `current` values. -/
theorem lifecycle_event_targeting {S T : Type} (e : Entity) (d : StateData S T)
    (g : Bool) (rest : List (Entity × StateData S T × Bool)) :
    (on_exit_transition ((e, d, g) :: rest)
        = (if d.is_updated && !d.is_reentrant then
            [({ target := if g then Entity.PLACEHOLDER else e
                previous := d.previous
                current := d.current } : TriggeredEvent S)]
          else []) ++ on_exit_transition rest)
    ∧ (on_enter_transition ((e, d, g) :: rest)
        = (if d.is_updated && !d.is_reentrant then
            [({ target := if g then Entity.PLACEHOLDER else e
                previous := d.previous
                current := d.current } : TriggeredEvent S)]
          else []) ++ on_enter_transition rest)
    ∧ (on_reexit_transition ((e, d, g) :: rest)
        = (if d.is_updated && !d.is_reentrant then
            [({ target := if g then Entity.PLACEHOLDER else e
                previous := d.previous
                current := d.current } : TriggeredEvent S)]
          else []) ++ on_reexit_transition rest)
    ∧ (on_reenter_transition ((e, d, g) :: rest)
        = (if d.is_updated && !d.is_reentrant then
            [({ target := if g then Entity.PLACEHOLDER else e
                previous := d.previous
                current := d.current } : TriggeredEvent S)]
          else []) ++ on_reenter_transition rest) := by
  refine ⟨?_, ?_, ?_, ?_⟩ <;>
    cases hu : d.is_updated <;> cases hr : d.is_reentrant <;>
      simp [on_exit_transition, on_enter_transition, on_reexit_transition,
        on_reenter_transition, hu, hr]

/-- C5: during the Update phase, `S::update` is invoked exactly once for an
instance iff the target reports `should_update` or the dependency set reports a
change; a `Nothing` decision leaves `current` and `previous` as they were
entering the phase with `is_updated` false for the tick; consequently an
instance with the `Unit` target and unchanged dependencies is never updated. -/
theorem update_system_call_contract {S T : Type} [DecidableEq S] [StateTarget T]
    (upd : StateData S T → StateUpdate S) (dep : Bool) (d : StateData S T) :
    ((update_system upd dep d).2 = 1
      ↔ (dep = true ∨ StateTarget.should_update d.target = true))
    ∧ ((upd { d with is_updated := false }).as_options = none →
        ((update_system upd dep d).1.current = d.current
          ∧ (update_system upd dep d).1.previous = d.previous
          ∧ (update_system upd dep d).1.is_updated = false))
    ∧ (∀ (upd2 : StateData S Unit → StateUpdate S) (d2 : StateData S Unit),
        update_system upd2 false d2 = ({ d2 with is_updated := false }, 0)) := by
  refine ⟨?_, ?_, ?_⟩
  · unfold update_system
    cases hg : (dep || StateTarget.should_update d.target)
    · simp_all
    · simp only [hg]
      rcases Bool.or_eq_true_iff.mp hg with h | h <;>
        cases hr : (upd { d with is_updated := false }).as_options <;> simp_all
  · intro hn
    unfold update_system
    cases hg : (dep || StateTarget.should_update d.target) <;> simp [hg, hn]
  · intro upd2 d2
    unfold update_system
    simp [StateTarget.should_update]

/-- Witness for C5 at a concrete input: the `Enable`-targeted record calls the
update function once, and the `Nothing` decision leaves the record untouched. -/
theorem update_system_call_contract_witness :
    ((update_system (fun _ => StateUpdate.Nothing) true blank_record).2 = 1
      ↔ (true = true ∨ StateTarget.should_update blank_record.target = true))
    ∧ ((update_system (fun _ => StateUpdate.Nothing) true blank_record).1.current
          = blank_record.current
      ∧ (update_system (fun _ => StateUpdate.Nothing) true blank_record).1.previous
          = blank_record.previous
      ∧ (update_system (fun _ => StateUpdate.Nothing) true blank_record).1.is_updated
          = false) := by
  have h := update_system_call_contract (fun _ => StateUpdate.Nothing) true blank_record
  exact ⟨h.1, h.2.1 rfl⟩

/-- C9: in the update phase the target is reset exactly when the decision is
applied: with a `Nothing` decision (or no call at all) the target field is left
unchanged, hence a staged request (`should_update` true) persists and still
reports `should_update` after the phase; with a `Disable`/`Enable` decision the
target is reset. -/
theorem target_reset_only_on_apply {S T : Type} [DecidableEq S] [StateTarget T]
    (upd : StateData S T → StateUpdate S) (dep : Bool) (d : StateData S T) :
    ((upd { d with is_updated := false }).as_options = none →
      (update_system upd dep d).1.target = d.target)
    ∧ (∀ nx, (upd { d with is_updated := false }).as_options = some nx →
        (dep = true ∨ StateTarget.should_update d.target = true) →
        (update_system upd dep d).1.target = StateTarget.reset d.target)
    ∧ (StateTarget.should_update d.target = true →
        (upd { d with is_updated := false }).as_options = none →
        StateTarget.should_update (update_system upd dep d).1.target = true) := by
  refine ⟨?_, ?_, ?_⟩
  · intro hn
    unfold update_system
    cases hg : (dep || StateTarget.should_update d.target) <;> simp [hg, hn]
  · intro nx hs hor
    have hg : (dep || StateTarget.should_update d.target) = true := by
      rcases hor with h | h <;> simp [h]
    unfold update_system
    simp only [hg, hs]
    have : ((({ d with is_updated := false } : StateData S T).update nx)).target
        = d.target := by
      by_cases h : nx = ({ d with is_updated := false } : StateData S T).current <;>
        simp [StateData.update, h]
    simp [this]
  · intro hs hn
    unfold update_system
    cases hg : (dep || StateTarget.should_update d.target) <;> simp [hg, hn, hs]

/-- A record with a staged `Enable 7` request. -/
def staged_record : StateData Nat (StateUpdate Nat) :=
  { is_reentrant := false
    previous := none
    current := some 3
    target := StateUpdate.Enable 7
    is_updated := false }

/-- Witness for C9 at a concrete input: a staged `Enable 7` target survives a
`Nothing` decision and still requests an update. -/
theorem target_reset_only_on_apply_witness :
    ((update_system (fun _ => StateUpdate.Nothing) false staged_record).1.target
        = staged_record.target)
    ∧ StateTarget.should_update
        (update_system (fun _ => StateUpdate.Nothing) false staged_record).1.target
        = true := by
  have h := target_reset_only_on_apply (fun _ => StateUpdate.Nothing) false staged_record
  exact ⟨h.1 rfl, h.2.2 rfl rfl⟩

/-- `const_max` from `state.rs`. -/
def const_max (a b : Nat) : Nat :=
  if a > b then a else b

mutual
/-- A state type in the dependency graph: a registration-marker id
(`RegisteredState<S>`) together with its `DependencySet` members. -/
inductive StateTy : Type where
  | mk : Nat → StateTyList → StateTy
/-- A `StateSet`: the compile-time list of dependency state types. -/
inductive StateTyList : Type where
  | nil : StateTyList
  | cons : StateTy → StateTyList → StateTyList
end

/-- The registration-marker id of a state type. -/
def StateTy.id : StateTy → Nat
  | .mk i _ => i

/-- The `DependencySet` of a state type. -/
def StateTy.deps : StateTy → StateTyList
  | .mk _ ds => ds

mutual
/-- `State::ORDER` from `state.rs`: `DependencySet::HIGHEST_ORDER + 1`. -/
def StateTy.order : StateTy → Nat
  | .mk _ ds => StateTyList.highestOrder ds + 1
/-- `StateSet::HIGHEST_ORDER`: 0 for the empty set, otherwise the `max!`
macro's left fold of `const_max` over the member orders. -/
def StateTyList.highestOrder : StateTyList → Nat
  | .nil => 0
  | .cons t ts => StateTyList.maxFrom t.order ts
/-- The left fold underlying the `max!` macro from `state.rs`. -/
def StateTyList.maxFrom : Nat → StateTyList → Nat
  | acc, .nil => acc
  | acc, .cons t ts => StateTyList.maxFrom (const_max acc t.order) ts
end

/-- The plain maximum of member orders, used to reason about `maxFrom`. -/
def StateTyList.listMax : StateTyList → Nat
  | .nil => 0
  | .cons t ts => max t.order (StateTyList.listMax ts)

theorem const_max_eq (a b : Nat) : const_max a b = max a b := by
  unfold const_max
  split
  · exact (max_eq_left (Nat.le_of_lt (by assumption))).symm
  · exact (max_eq_right (Nat.le_of_not_lt (by assumption))).symm

theorem StateTyList.maxFrom_eq : (ts : StateTyList) → ∀ acc,
    StateTyList.maxFrom acc ts = max acc ts.listMax
  | .nil => by
    intro acc
    simp [StateTyList.maxFrom, StateTyList.listMax]
  | .cons t ts => by
    intro acc
    rw [StateTyList.maxFrom, StateTyList.maxFrom_eq ts, StateTyList.listMax,
      const_max_eq, max_assoc]

theorem StateTyList.highestOrder_eq (ts : StateTyList) :
    ts.highestOrder = ts.listMax := by
  cases ts with
  | nil => rfl
  | cons t ts =>
    rw [StateTyList.highestOrder, StateTyList.maxFrom_eq, StateTyList.listMax]

theorem StateTy.order_def (t : StateTy) :
    t.order = t.deps.highestOrder + 1 := by
  cases t
  rfl

theorem StateTy.order_pos (t : StateTy) : 1 ≤ t.order := by
  rw [StateTy.order_def]
  omega

theorem StateTyList.listMax_pos (t : StateTy) (ts : StateTyList) :
    1 ≤ (StateTyList.cons t ts).listMax := by
  rw [StateTyList.listMax]
  exact le_trans t.order_pos (le_max_left _ _)

/-- C6: a state's hierarchy order is its dependency set's highest order plus
one; the highest order of a dependency set is 0 exactly when the set is empty
(so the order value 0 arises only from state types with no dependencies); and no
state type is ever assigned order 0. -/
theorem hierarchy_order_spec (i : Nat) (ds : StateTyList) :
    (StateTy.order (.mk i ds) = ds.highestOrder + 1)
    ∧ (ds.highestOrder = 0 ↔ ds = .nil)
    ∧ (∀ t : StateTy, t.order ≠ 0) := by
  refine ⟨rfl, ⟨?_, ?_⟩, ?_⟩
  · intro h
    cases ds with
    | nil => rfl
    | cons t ts =>
      rw [StateTyList.highestOrder_eq] at h
      have := StateTyList.listMax_pos t ts
      omega
  · intro h
    rw [h]
    rfl
  · intro t
    have := t.order_pos
    omega

mutual
/-- The hierarchy orders of a state type and of all its transitive
dependencies, as registered by `register_state` recursion. -/
def StateTy.ordersOf : StateTy → List Nat
  | .mk i ds => StateTy.order (.mk i ds) :: ds.ordersOfList
/-- The orders contributed by the members of a `StateSet`. -/
def StateTyList.ordersOfList : StateTyList → List Nat
  | .nil => []
  | .cons t ts => t.ordersOf ++ ts.ordersOfList
end

mutual
theorem StateTy.ordersOf_bounds : (t : StateTy) → ∀ k, k ∈ t.ordersOf →
    1 ≤ k ∧ k ≤ t.order
  | .mk i ds => by
    intro k hk
    rw [StateTy.ordersOf] at hk
    rcases List.mem_cons.mp hk with h | h
    · subst h
      exact ⟨StateTy.order_pos _, le_refl _⟩
    · have hb := StateTyList.ordersOfList_bounds ds k h
      have hord : StateTy.order (.mk i ds) = ds.listMax + 1 := by
        rw [StateTy.order, StateTyList.highestOrder_eq]
      refine ⟨hb.1, ?_⟩
      have := hb.2
      omega
theorem StateTyList.ordersOfList_bounds : (ds : StateTyList) → ∀ k,
    k ∈ ds.ordersOfList → 1 ≤ k ∧ k ≤ ds.listMax
  | .nil => by
    intro k hk
    rw [StateTyList.ordersOfList] at hk
    exact absurd hk (List.not_mem_nil k)
  | .cons t ts => by
    intro k hk
    rw [StateTyList.ordersOfList] at hk
    rw [StateTyList.listMax]
    rcases List.mem_append.mp hk with h | h
    · have hb := StateTy.ordersOf_bounds t k h
      exact ⟨hb.1, le_trans hb.2 (le_max_left _ _)⟩
    · have hb := StateTyList.ordersOfList_bounds ts k h
      exact ⟨hb.1, le_trans hb.2 (le_max_right _ _)⟩
end

mutual
theorem StateTy.mem_ordersOf : (t : StateTy) → ∀ k, 1 ≤ k → k ≤ t.order →
    k ∈ t.ordersOf
  | .mk i ds => by
    intro k h1 h2
    rw [StateTy.ordersOf]
    have hord : StateTy.order (.mk i ds) = ds.listMax + 1 := by
      rw [StateTy.order, StateTyList.highestOrder_eq]
    by_cases he : k = StateTy.order (.mk i ds)
    · exact he ▸ List.mem_cons_self _ _
    · have hk : k ≤ ds.listMax := by omega
      exact List.mem_cons_of_mem _ (StateTyList.mem_ordersOfList ds k h1 hk)
theorem StateTyList.mem_ordersOfList : (ds : StateTyList) → ∀ k, 1 ≤ k →
    k ≤ ds.listMax → k ∈ ds.ordersOfList
  | .nil => by
    intro k h1 h2
    rw [StateTyList.listMax] at h2
    omega
  | .cons t ts => by
    intro k h1 h2
    rw [StateTyList.listMax] at h2
    rw [StateTyList.ordersOfList]
    rcases le_max_iff.mp h2 with h | h
    · exact List.mem_append_left _ (StateTy.mem_ordersOf t k h1 h)
    · exact List.mem_append_right _ (StateTyList.mem_ordersOfList ts k h1 h)
end

/-- The three phases of the `StateTransition` schedule
(`AllUpdates`, `AllExits`, `AllEnters`). -/
inductive Phase : Type where
  | update : Phase
  | exit : Phase
  | enter : Phase
  deriving DecidableEq

/-- Modelled from the spec: the system-set graph executor (`bevy_ecs`
schedules, not under `src/`) is abstracted as an assignment of a position to
every `(phase, order)` system-set node of the `StateTransition` schedule. -/
structure SchedExec : Type where
  pos : Phase → Nat → Nat

/-- The set nodes mentioned by `StateSystemSet::configuration::<S>` over the
registered orders: each order `o` together with its anchor `o - 1`. -/
def nodeOrders (orders : List Nat) : List Nat :=
  orders ++ orders.map (fun o => o - 1)

/-- Modelled from the spec: a compliant execution of the `StateTransition`
schedule respects the constraints declared by
`StateSystemSet::configuration::<S>` for every registered state type `S`
(with `o = S::ORDER`): `AllUpdates`, `AllExits`, `AllEnters` run in a chain;
`Update(o)` runs after `Update(o - 1)`; `Exit(o)` runs before `Exit(o - 1)`;
`Enter(o)` runs after `Enter(o - 1)`. -/
def ValidExec (orders : List Nat) (e : SchedExec) : Prop :=
  (∀ a ∈ nodeOrders orders, ∀ b ∈ nodeOrders orders,
    e.pos Phase.update a < e.pos Phase.exit b)
  ∧ (∀ a ∈ nodeOrders orders, ∀ b ∈ nodeOrders orders,
    e.pos Phase.exit a < e.pos Phase.enter b)
  ∧ (∀ o ∈ orders, e.pos Phase.update (o - 1) < e.pos Phase.update o)
  ∧ (∀ o ∈ orders, e.pos Phase.exit o < e.pos Phase.exit (o - 1))
  ∧ (∀ o ∈ orders, e.pos Phase.enter (o - 1) < e.pos Phase.enter o)

theorem pos_exit_chain (orders : List Nat) (e : SchedExec) (hv : ValidExec orders e)
    (b : Nat) :
    ∀ n, (∀ k, b < k → k ≤ b + n + 1 → k ∈ orders) →
      e.pos Phase.exit (b + n + 1) < e.pos Phase.exit b := by
  intro n
  induction n with
  | zero =>
    intro hmem
    have h1 : b + 1 ∈ orders := hmem (b + 1) (by omega) (by omega)
    have h2 := hv.2.2.2.1 (b + 1) h1
    simpa using h2
  | succ n ih =>
    intro hmem
    have hmem2 : ∀ k, b < k → k ≤ b + n + 1 → k ∈ orders := by
      intro k hk1 hk2
      exact hmem k hk1 (by omega)
    have h1 : b + n + 2 ∈ orders := hmem (b + n + 2) (by omega) (by omega)
    have h2 := hv.2.2.2.1 (b + n + 2) h1
    have h3 := ih hmem2
    have h4 : b + n + 2 - 1 = b + n + 1 := by omega
    rw [h4] at h2
    exact lt_trans h2 h3

theorem pos_enter_chain (orders : List Nat) (e : SchedExec) (hv : ValidExec orders e)
    (b : Nat) :
    ∀ n, (∀ k, b < k → k ≤ b + n + 1 → k ∈ orders) →
      e.pos Phase.enter b < e.pos Phase.enter (b + n + 1) := by
  intro n
  induction n with
  | zero =>
    intro hmem
    have h1 : b + 1 ∈ orders := hmem (b + 1) (by omega) (by omega)
    have h2 := hv.2.2.2.2 (b + 1) h1
    simpa using h2
  | succ n ih =>
    intro hmem
    have hmem2 : ∀ k, b < k → k ≤ b + n + 1 → k ∈ orders := by
      intro k hk1 hk2
      exact hmem k hk1 (by omega)
    have h1 : b + n + 2 ∈ orders := hmem (b + n + 2) (by omega) (by omega)
    have h2 := hv.2.2.2.2 (b + n + 2) h1
    have h3 := ih hmem2
    have h4 : b + n + 2 - 1 = b + n + 1 := by omega
    rw [h4] at h2
    exact lt_trans h3 h2

/-- A system instance added to the `StateTransition` schedule: the owning state
type's registration id, the phase it belongs to, and the state's hierarchy
order (its `StateSystemSet` index). -/
structure Sys : Type where
  id : Nat
  phase : Phase
  order : Nat
  deriving DecidableEq

/-- Modelled from the spec: a full execution assigns each system a time and is
compliant when it refines some compliant set-node placement — systems in
distinct set nodes run in node order, systems sharing a node (equal phase and
hierarchy order) are mutually unconstrained. -/
def SysExecValid (orders : List Nat) (sys : List Sys) (time : Sys → Nat) : Prop :=
  ∃ e : SchedExec, ValidExec orders e
    ∧ ∀ s1 ∈ sys, ∀ s2 ∈ sys,
        e.pos s1.phase s1.order < e.pos s2.phase s2.order → time s1 < time s2

/-- A three-level dependency chain: leaf id 2 depends on mid id 1 depends on
root id 0. -/
def chain3 : StateTy :=
  .mk 2 (.cons (.mk 1 (.cons (.mk 0 .nil) .nil)) .nil)

/-- Exit-phase systems of two unrelated order-1 state types. -/
def sysA : Sys :=
  { id := 0, phase := Phase.exit, order := 1 }

/-- Second order-1 exit system, same set node as `sysA`. -/
def sysB : Sys :=
  { id := 1, phase := Phase.exit, order := 1 }

/-- A concrete compliant set-node placement for the 3-chain orders. -/
def chainExec : SchedExec :=
  { pos := fun p o =>
      match p with
      | Phase.update => o
      | Phase.exit => 10 - o
      | Phase.enter => 20 + o }

theorem chain3_ordersOf : chain3.ordersOf = [3, 2, 1] := by
  simp [chain3, StateTy.ordersOf, StateTyList.ordersOfList, StateTy.order,
    StateTyList.highestOrder, StateTyList.maxFrom, const_max]

theorem chainExec_valid : ValidExec chain3.ordersOf chainExec := by
  rw [chain3_ordersOf]
  unfold ValidExec
  refine ⟨?_, ?_, ?_, ?_, ?_⟩ <;> decide

/-- C4: in any compliant execution of the schedule produced by registering a
state hierarchy, exit-phase systems of higher hierarchy order run before
exit-phase systems of lower order (leaves before roots), enter-phase systems of
lower order run before higher order (roots before leaves), every exit-phase
system runs before every enter-phase system, and two systems of equal hierarchy
order and phase are unconstrained: both relative orders occur in compliant
executions. -/
theorem transition_phase_ordering :
    (∀ (t : StateTy) (e : SchedExec), ValidExec t.ordersOf e →
      ∀ a b, a ∈ t.ordersOf → b ∈ t.ordersOf → b < a →
        e.pos Phase.exit a < e.pos Phase.exit b
          ∧ e.pos Phase.enter b < e.pos Phase.enter a)
    ∧ (∀ (t : StateTy) (e : SchedExec), ValidExec t.ordersOf e →
      ∀ a b, a ∈ t.ordersOf → b ∈ t.ordersOf →
        e.pos Phase.exit a < e.pos Phase.enter b)
    ∧ (∃ time1 time2 : Sys → Nat,
        SysExecValid chain3.ordersOf [sysA, sysB] time1
        ∧ SysExecValid chain3.ordersOf [sysA, sysB] time2
        ∧ time1 sysA < time1 sysB ∧ time2 sysB < time2 sysA) := by
  refine ⟨?_, ?_, ?_⟩
  · intro t e hv a b ha hb hlt
    have hab := t.ordersOf_bounds a ha
    have hbb := t.ordersOf_bounds b hb
    have hmem : ∀ k, b < k → k ≤ b + (a - b - 1) + 1 → k ∈ t.ordersOf := by
      intro k h1 h2
      exact t.mem_ordersOf k (by omega) (by omega)
    have heq : b + (a - b - 1) + 1 = a := by omega
    constructor
    · have := pos_exit_chain t.ordersOf e hv b (a - b - 1) hmem
      rwa [heq] at this
    · have := pos_enter_chain t.ordersOf e hv b (a - b - 1) hmem
      rwa [heq] at this
  · intro t e hv a b ha hb
    exact hv.2.1 a (List.mem_append_left _ ha) b (List.mem_append_left _ hb)
  · refine ⟨fun s => 2 * chainExec.pos s.phase s.order + s.id,
      fun s => 2 * chainExec.pos s.phase s.order + (1 - s.id), ?_, ?_, ?_, ?_⟩
    · exact ⟨chainExec, chainExec_valid, by decide⟩
    · exact ⟨chainExec, chainExec_valid, by decide⟩
    · decide
    · decide

/-- Witness for C4 at the concrete 3-chain and placement: leaf exit before mid
exit, mid enter before leaf enter, exit before enter. -/
theorem transition_phase_ordering_witness :
    chainExec.pos Phase.exit 3 < chainExec.pos Phase.exit 2
      ∧ chainExec.pos Phase.enter 2 < chainExec.pos Phase.enter 3
      ∧ chainExec.pos Phase.exit 3 < chainExec.pos Phase.enter 1 := by
  have h1 := transition_phase_ordering.1 chain3 chainExec chainExec_valid 3 2
    (by rw [chain3_ordersOf]; decide) (by rw [chain3_ordersOf]; decide) (by decide)
  have h2 := transition_phase_ordering.2.1 chain3 chainExec chainExec_valid 3 1
    (by rw [chain3_ordersOf]; decide) (by rw [chain3_ordersOf]; decide)
  exact ⟨h1.1, h1.2, h2⟩

mutual
/-- The registration-marker ids of a state type and its transitive
dependencies. -/
def StateTy.ids : StateTy → List Nat
  | .mk i ds => i :: ds.idsList
/-- The ids contributed by the members of a `StateSet`. -/
def StateTyList.idsList : StateTyList → List Nat
  | .nil => []
  | .cons t ts => t.ids ++ ts.idsList
end

/-- Schedule additions for one freshly registered state type: its
`update_system` plus the default `StateTransitionsConfig`'s `on_exit_transition`
and `on_enter_transition` systems, tagged by phase. -/
def registrationSystems (t : StateTy) : List (Nat × Phase) :=
  [(t.id, Phase.update), (t.id, Phase.exit), (t.id, Phase.enter)]

/-- The world state touched by `State::register_state`: the spawned
`RegisteredState<S>` marker entities and the `StateTransition` schedule
contents. -/
structure RegWorld : Type where
  registered : List Nat
  schedule : List (Nat × Phase)
  deriving DecidableEq

mutual
/-- `State::register_state` from `state.rs`: register all dependency states
first; then, if a `RegisteredState<S>` marker already exists (once or
duplicated), warn and do nothing more; otherwise spawn the marker and add the
state's update and transition systems to the schedule. -/
def StateTy.register_state : StateTy → RegWorld → RegWorld
  | .mk i ds, w =>
    let w1 := StateTyList.register_required_states ds w
    if w1.registered.count i = 0 then
      { registered := w1.registered ++ [i]
        schedule := w1.schedule ++ registrationSystems (.mk i ds) }
    else w1
/-- `StateSet::register_required_states`: recursively registers every member. -/
def StateTyList.register_required_states : StateTyList → RegWorld → RegWorld
  | .nil, w => w
  | .cons t ts, w => StateTyList.register_required_states ts (t.register_state w)
end

/-- `register_state` called `n` times in a row for the same state type. -/
def StateTy.registerTimes (t : StateTy) : Nat → RegWorld → RegWorld
  | 0, w => w
  | n + 1, w => t.registerTimes n (t.register_state w)

mutual
theorem StateTy.register_count : (t : StateTy) → ∀ (w : RegWorld) (j : Nat),
    ((t.register_state w).registered.count j)
      = if j ∈ t.ids ∧ w.registered.count j = 0 then 1 else w.registered.count j
  | .mk i ds => by
    intro w j
    rw [StateTy.register_state]
    have h1 := StateTyList.register_count_list ds w j
    have h1i := StateTyList.register_count_list ds w i
    split
    · next hz =>
      rw [List.count_append]
      rw [h1]
      rw [h1i] at hz
      have hzi : w.registered.count i = 0 ∧ i ∉ ds.idsList := by
        rcases Decidable.em (i ∈ ds.idsList ∧ w.registered.count i = 0) with hcase | hcase
        · rw [if_pos hcase] at hz
          omega
        · rw [if_neg hcase] at hz
          exact ⟨hz, fun hm => hcase ⟨hm, hz⟩⟩
      rw [StateTy.ids]
      by_cases hji : j = i
      · subst hji
        have hns : ¬(j ∈ ds.idsList ∧ List.count j w.registered = 0) :=
          fun hx => hzi.2 hx.1
        rw [if_neg hns, hzi.1]
        have hone : List.count j [j] = 1 := by simp
        rw [hone, if_pos ⟨List.mem_cons_self j _, rfl⟩]
      · have hcnt : List.count j [i] = 0 := by simp [hji]
        rw [hcnt]
        simp [List.mem_cons, hji]
    · next hz =>
      rw [h1]
      rw [h1i] at hz
      rw [StateTy.ids]
      by_cases hji : j = i
      · subst hji
        by_cases hc : List.count j w.registered = 0
        · have hm : j ∈ ds.idsList := by
            by_contra hm
            rw [if_neg (fun hx => hm hx.1)] at hz
            exact hz hc
          rw [if_pos ⟨hm, hc⟩, if_pos ⟨List.mem_cons_self _ _, hc⟩]
        · rw [if_neg (fun hx => hc hx.2), if_neg (fun hx => hc hx.2)]
      · simp [List.mem_cons, hji]
theorem StateTyList.register_count_list : (ds : StateTyList) → ∀ (w : RegWorld) (j : Nat),
    ((ds.register_required_states w).registered.count j)
      = if j ∈ ds.idsList ∧ w.registered.count j = 0 then 1 else w.registered.count j
  | .nil => by
    intro w j
    rw [StateTyList.register_required_states, StateTyList.idsList]
    simp
  | .cons t ts => by
    intro w j
    rw [StateTyList.register_required_states, StateTyList.idsList]
    have h1 := StateTy.register_count t w j
    have h2 := StateTyList.register_count_list ts (t.register_state w) j
    rw [h2, h1]
    by_cases hc : w.registered.count j = 0
    · by_cases hmt : j ∈ t.ids
      · simp [hmt, hc]
      · by_cases hms : j ∈ ts.idsList
        · simp [hmt, hms, hc]
        · simp [hmt, hms, hc]
    · simp [hc]
end

theorem count_registrationSystems (i : Nat) (ds : StateTyList) (j : Nat) (ph : Phase) :
    List.count (j, ph) (registrationSystems (.mk i ds)) = if j = i then 1 else 0 := by
  by_cases hji : j = i
  · subst hji
    cases ph <;>
      simp [registrationSystems, StateTy.id, List.count_cons, List.count_nil]
  · cases ph <;>
      simp [registrationSystems, StateTy.id, List.count_cons, List.count_nil, hji]

mutual
theorem StateTy.register_sched : (t : StateTy) → ∀ (w : RegWorld) (j : Nat) (ph : Phase),
    ((t.register_state w).schedule.count (j, ph))
      = w.schedule.count (j, ph)
        + (if j ∈ t.ids ∧ w.registered.count j = 0 then 1 else 0)
  | .mk i ds => by
    intro w j ph
    rw [StateTy.register_state]
    have h1 := StateTyList.register_sched_list ds w j ph
    have h1i := StateTyList.register_count_list ds w i
    split
    · next hz =>
      rw [List.count_append, h1, count_registrationSystems, StateTy.ids]
      rw [h1i] at hz
      have hzi : w.registered.count i = 0 ∧ i ∉ ds.idsList := by
        rcases Decidable.em (i ∈ ds.idsList ∧ w.registered.count i = 0) with hcase | hcase
        · rw [if_pos hcase] at hz
          omega
        · rw [if_neg hcase] at hz
          exact ⟨hz, fun hm => hcase ⟨hm, hz⟩⟩
      by_cases hji : j = i
      · subst hji
        have hns : ¬(j ∈ ds.idsList ∧ List.count j w.registered = 0) :=
          fun hx => hzi.2 hx.1
        rw [if_neg hns, if_pos rfl, if_pos ⟨List.mem_cons_self j _, hzi.1⟩]
      · rw [if_neg hji]
        simp [List.mem_cons, hji]
    · next hz =>
      rw [h1, StateTy.ids]
      rw [h1i] at hz
      by_cases hji : j = i
      · subst hji
        by_cases hc : List.count j w.registered = 0
        · have hm : j ∈ ds.idsList := by
            by_contra hm
            rw [if_neg (fun hx => hm hx.1)] at hz
            exact hz hc
          rw [if_pos ⟨hm, hc⟩, if_pos ⟨List.mem_cons_self _ _, hc⟩]
        · rw [if_neg (fun hx => hc hx.2), if_neg (fun hx => hc hx.2)]
      · simp [List.mem_cons, hji]
theorem StateTyList.register_sched_list : (ds : StateTyList) →
    ∀ (w : RegWorld) (j : Nat) (ph : Phase),
    ((ds.register_required_states w).schedule.count (j, ph))
      = w.schedule.count (j, ph)
        + (if j ∈ ds.idsList ∧ w.registered.count j = 0 then 1 else 0)
  | .nil => by
    intro w j ph
    rw [StateTyList.register_required_states, StateTyList.idsList]
    simp
  | .cons t ts => by
    intro w j ph
    rw [StateTyList.register_required_states, StateTyList.idsList]
    rw [StateTyList.register_sched_list ts (t.register_state w) j ph]
    rw [StateTy.register_sched t w j ph]
    rw [StateTy.register_count t w j]
    by_cases hc : w.registered.count j = 0
    · by_cases hmt : j ∈ t.ids
      · simp [hmt, hc]
      · by_cases hms : j ∈ ts.idsList
        · simp [hmt, hms, hc]
        · simp [hmt, hms, hc]
    · simp [hc]
end

mutual
theorem StateTy.register_noop : (t : StateTy) → ∀ w : RegWorld,
    (∀ j ∈ t.ids, w.registered.count j ≠ 0) → t.register_state w = w
  | .mk i ds => by
    intro w h
    have hd : StateTyList.register_required_states ds w = w :=
      StateTyList.register_noop_list ds w
        (fun j hj => h j (by rw [StateTy.ids]; exact List.mem_cons_of_mem _ hj))
    have hni : w.registered.count i ≠ 0 :=
      h i (by rw [StateTy.ids]; exact List.mem_cons_self _ _)
    rw [StateTy.register_state, hd, if_neg hni]
theorem StateTyList.register_noop_list : (ds : StateTyList) → ∀ w : RegWorld,
    (∀ j ∈ ds.idsList, w.registered.count j ≠ 0) →
      ds.register_required_states w = w
  | .nil => by
    intro w h
    rw [StateTyList.register_required_states]
  | .cons t ts => by
    intro w h
    rw [StateTyList.register_required_states]
    have h1 : t.register_state w = w :=
      StateTy.register_noop t w
        (fun j hj => h j (by rw [StateTyList.idsList]; exact List.mem_append_left _ hj))
    rw [h1]
    exact StateTyList.register_noop_list ts w
      (fun j hj => h j (by rw [StateTyList.idsList]; exact List.mem_append_right _ hj))
end

/-- C7: `register_state` is idempotent — any number `n + 1` of consecutive
calls produces the same world as a single call (every call after the first is a
no-op); and a single call from an empty world spawns exactly one
`RegisteredState` marker per (transitively) registered state type and adds its
update, exit and enter systems to the schedule exactly once each. -/
theorem register_state_idempotent :
    (∀ (t : StateTy) (w : RegWorld) (n : Nat),
      t.registerTimes (n + 1) w = t.register_state w)
    ∧ (∀ (t : StateTy) (j : Nat) (ph : Phase),
      ((t.register_state { registered := [], schedule := [] }).registered.count j
          = if j ∈ t.ids then 1 else 0)
      ∧ ((t.register_state { registered := [], schedule := [] }).schedule.count (j, ph)
          = if j ∈ t.ids then 1 else 0)) := by
  constructor
  · intro t w n
    induction n generalizing w with
    | zero => rfl
    | succ n ih =>
      have hge : ∀ j ∈ t.ids, (t.register_state w).registered.count j ≠ 0 := by
        intro j hj
        rw [StateTy.register_count t w j]
        split
        · omega
        · next hcond =>
          intro h0
          exact hcond ⟨hj, h0⟩
      calc t.registerTimes (n + 1 + 1) w
          = t.registerTimes (n + 1) (t.register_state w) := rfl
        _ = t.register_state (t.register_state w) := ih _
        _ = t.register_state w := StateTy.register_noop t _ hge
  · intro t j ph
    constructor
    · rw [StateTy.register_count]
      simp
    · rw [StateTy.register_sched]
      simp

/-- The world state touched by `InitializeStateCommand::apply` for one state
type `S`: the entities carrying `GlobalStateMarker`, the entities carrying a
`StateData<S>` component, and the next fresh entity id for `spawn`. -/
structure InitWorld (S T : Type) : Type where
  globals : List Entity
  data : List (Entity × StateData S T)
  nextEntity : Entity

/-- Query for the `StateData<S>` component of an entity. -/
def lookupState {S T : Type} (data : List (Entity × StateData S T)) (e : Entity) :
    Option (StateData S T) :=
  (data.find? fun p => p.1 == e).map Prod.snd

/-- The second half of `InitializeStateCommand::apply`: insert
`StateData::new(initial, suppress_initial_update)` on the resolved entity
unless the component is already present (then warn and do nothing). -/
def initialize_at {S T : Type} [StateTarget T] (initial : Option S)
    (suppress_initial_update : Bool) (e : Entity) (w : InitWorld S T) : InitWorld S T :=
  if (lookupState w.data e).isSome then w
  else { w with data := w.data ++ [(e, StateData.new initial suppress_initial_update)] }

/-- `InitializeStateCommand::apply` from `commands.rs`: resolve the owner —
the given local entity, or the unique `GlobalStateMarker` entity (spawning one
when absent, abandoning the command when several exist) — then initialize the
state component there. -/
def InitializeStateCommand.apply {S T : Type} [StateTarget T]
    (localEntity : Option Entity) (initial : Option S)
    (suppress_initial_update : Bool) (w : InitWorld S T) : InitWorld S T :=
  match localEntity with
  | some e => initialize_at initial suppress_initial_update e w
  | none =>
    match w.globals with
    | [e] => initialize_at initial suppress_initial_update e w
    | [] =>
      initialize_at initial suppress_initial_update w.nextEntity
        { w with
          globals := w.globals ++ [w.nextEntity], nextEntity := w.nextEntity + 1 }
    | _ => w

theorem lookupState_append_self {S T : Type} (data : List (Entity × StateData S T))
    (e : Entity) (d : StateData S T) :
    (lookupState (data ++ [(e, d)]) e).isSome = true := by
  unfold lookupState
  rw [List.find?_append]
  cases hf : data.find? fun p => p.1 == e with
  | none => simp
  | some v => simp

theorem initialize_at_globals {S T : Type} [StateTarget T] (initial : Option S)
    (s : Bool) (e : Entity) (w : InitWorld S T) :
    (initialize_at initial s e w).globals = w.globals := by
  unfold initialize_at
  split <;> rfl

theorem initialize_at_twice {S T : Type} [StateTarget T]
    (i1 i2 : Option S) (s1 s2 : Bool) (e : Entity) (w : InitWorld S T) :
    initialize_at i2 s2 e (initialize_at i1 s1 e w) = initialize_at i1 s1 e w := by
  by_cases h : (lookupState w.data e).isSome = true
  · have h1 : initialize_at i1 s1 e w = w := by
      rw [initialize_at, if_pos h]
    rw [h1, initialize_at, if_pos h]
  · have h1 : initialize_at i1 s1 e w
        = { w with data := w.data ++ [(e, StateData.new i1 s1)] } := by
      rw [initialize_at, if_neg h]
    rw [h1, initialize_at, if_pos]
    exact lookupState_append_self w.data e _

theorem apply_global_single {S T : Type} [StateTarget T] (i : Option S) (s : Bool)
    (w : InitWorld S T) (e : Entity) (hg : w.globals = [e]) :
    InitializeStateCommand.apply none i s w = initialize_at i s e w := by
  simp only [InitializeStateCommand.apply, hg]

theorem apply_global_empty {S T : Type} [StateTarget T] (i : Option S) (s : Bool)
    (w : InitWorld S T) (hg : w.globals = []) :
    InitializeStateCommand.apply none i s w
      = initialize_at i s w.nextEntity
          { w with
            globals := w.globals ++ [w.nextEntity], nextEntity := w.nextEntity + 1 } := by
  simp only [InitializeStateCommand.apply, hg]

theorem apply_global_many {S T : Type} [StateTarget T] (i : Option S) (s : Bool)
    (w : InitWorld S T) (a b : Entity) (rest : List Entity)
    (hg : w.globals = a :: b :: rest) :
    InitializeStateCommand.apply none i s w = w := by
  simp only [InitializeStateCommand.apply, hg]

/-- C8: applying `InitializeStateCommand` a second time for the same
(type, owner) is ignored -- the world, including the record created by the
first call, is exactly the one the first call produced. -/
theorem init_state_second_call_ignored {S T : Type} [StateTarget T]
    (localEntity : Option Entity) (i1 i2 : Option S) (s1 s2 : Bool)
    (w : InitWorld S T) :
    InitializeStateCommand.apply localEntity i2 s2
        (InitializeStateCommand.apply localEntity i1 s1 w)
      = InitializeStateCommand.apply localEntity i1 s1 w := by
  cases localEntity with
  | some e => exact initialize_at_twice i1 i2 s1 s2 e w
  | none =>
    match hg : w.globals with
    | [e] =>
      have hgl : (initialize_at i1 s1 e w).globals = [e] := by
        rw [initialize_at_globals]
        exact hg
      rw [apply_global_single i1 s1 w e hg,
        apply_global_single i2 s2 _ e hgl, initialize_at_twice]
    | [] =>
      have h1 := apply_global_empty i1 s1 w hg
      have hgl : (initialize_at i1 s1 w.nextEntity
          { w with
            globals := w.globals ++ [w.nextEntity],
            nextEntity := w.nextEntity + 1 }).globals = [w.nextEntity] := by
        rw [initialize_at_globals]
        show w.globals ++ [w.nextEntity] = [w.nextEntity]
        rw [hg]
        rfl
      rw [h1, apply_global_single i2 s2 _ w.nextEntity hgl, initialize_at_twice]
    | a :: b :: rest =>
      rw [apply_global_many i1 s1 w a b rest hg, apply_global_many i2 s2 w a b rest hg]

/-- Witness for C6 at a concrete state type with no dependencies: its order is
`0 + 1`, the empty dependency set has highest order 0, and its order is not 0. -/
theorem hierarchy_order_spec_witness :
    StateTy.order (.mk 5 .nil) = StateTyList.highestOrder .nil + 1
      ∧ StateTyList.highestOrder .nil = 0
      ∧ StateTy.order (.mk 5 .nil) ≠ 0 := by
  have h := hierarchy_order_spec 5 .nil
  exact ⟨h.1, h.2.1.mpr rfl, h.2.2 (.mk 5 .nil)⟩
